import Mathlib

/-!
Shallow embedding of the SSH Tetris server (`tetris-server.js`): the piece
catalog, board operations (collision, placement, line clearing), the game
engine (spawn, move, rotate, drops, scoring), the screen state machine, and
the leaderboard upsert (`updateHighScore`).  Rendering, terminal I/O, the
transport layer and file persistence are external collaborators and are not
modelled; the randomness of `spawnNextPiece` is passed in as an explicit
parameter, and wall-clock timing is abstracted away (the gravity tick is
modelled as the operation it performs when it fires).
-/

namespace TetrisSSH

/-- The 7 tetromino type tags (keys of the `PIECES` object). -/
inductive Piece : Type
  | I | O | T | S | Z | J | L
  deriving DecidableEq, Repr, Inhabited

/-- A rotation state: a rectangular (possibly ragged) 0/1 matrix; JS stores
numbers 0/1 and tests truthiness, modelled as `Bool`. -/
abbrev Shape := List (List Bool)

/-- `PIECES[type].shapes` from the source (the `color` field is render-only
and omitted). -/
def PIECES : Piece → List Shape
  | .I => [[[true, true, true, true]],
           [[true], [true], [true], [true]]]
  | .O => [[[true, true], [true, true]]]
  | .T => [[[false, true, false], [true, true, true]],
           [[true, false], [true, true], [true, false]],
           [[true, true, true], [false, true, false]],
           [[false, true], [true, true], [false, true]]]
  | .S => [[[false, true, true], [true, true, false]],
           [[true, false], [true, true], [false, true]]]
  | .Z => [[[true, true, false], [false, true, true]],
           [[false, true], [true, true], [true, false]]]
  | .J => [[[true, false, false], [true, true, true]],
           [[true, true], [true, false], [true, false]],
           [[true, true, true], [false, false, true]],
           [[false, true], [false, true], [true, true]]]
  | .L => [[[false, false, true], [true, true, true]],
           [[true, false], [true, false], [true, true]],
           [[true, true, true], [true, false, false]],
           [[true, true], [false, true], [false, true]]]

/-- A board row: 10 cells, each `null` or a tetromino tag. -/
abbrev Row := List (Option Piece)

/-- The board: 20 rows of 10 cells. -/
abbrev Board := List Row

/-- `Array(10).fill(null)` -/
def emptyRow : Row := List.replicate 10 none

/-- `Array(20).fill().map(() => Array(10).fill(null))` -/
def emptyBoard : Board := List.replicate 20 emptyRow

/-- The `STATES` object: the screen-level state machine states. -/
inductive ScreenState : Type
  | welcome | playing | paused | gameOver | highScores
  | accountMenu | accountExport | accountDelete
  deriving DecidableEq, Repr, Inhabited

/-- A leaderboard entry (`scoreEntry` in `updateHighScore`). -/
structure HighScoreEntry where
  playerId : String
  playerName : String
  score : Nat
  level : Nat
  lines : Nat
  date : String
  deriving DecidableEq, Repr, Inhabited

/-- `MAX_HIGHSCORE_ENTRIES = 100` -/
def MAX_HIGHSCORE_ENTRIES : Nat := 100

/-- `highScores.sort((a, b) => b.score - a.score)`: Node's `Array.prototype.sort`
is stable, so this is the stable sort by score descending; `insertionSort` with
this relation is exactly that stable sort. -/
def sortDesc (l : List HighScoreEntry) : List HighScoreEntry :=
  l.insertionSort (fun a b => b.score ≤ a.score)

/-- `updateHighScore` (the leaderboard part): find the player's existing entry;
replace it only if the new score is strictly greater, otherwise push the new
entry; re-sort by score descending (stable); truncate with
`slice(0, Math.min(50, MAX_HIGHSCORE_ENTRIES))`.  The player-history update on
`playerData`, the file writes and the returned rank are PlayerStore /
persistence side effects outside the leaderboard state and are omitted. -/
def updateHighScore (hs : List HighScoreEntry) (e : HighScoreEntry) :
    List HighScoreEntry :=
  let hs1 :=
    match hs.findIdx? (fun entry => entry.playerId == e.playerId) with
    | some i => if e.score > (hs.getD i default).score then hs.set i e else hs
    | none => hs ++ [e]
  (sortDesc hs1).take (min 50 MAX_HIGHSCORE_ENTRIES)

/-- The per-session game object (`TetrisGame` class fields that carry game
state; `stream`, `player`, `playerBest` and `lastDrop` are transport /
persistence / wall-clock concerns and are omitted). -/
structure TetrisGame where
  board : Board
  pieceType : Piece      -- currentType
  rotation : Nat         -- currentRotation
  shape : Shape          -- currentPiece
  x : Int                -- currentX
  y : Int                -- currentY
  nextType : Piece
  score : Nat
  level : Nat
  lines : Nat
  dropTime : Int
  state : ScreenState
  deriving DecidableEq, Repr, Inhabited

/-- `setState` (the `render()` call is output-only). -/
def setState (s : ScreenState) (g : TetrisGame) : TetrisGame :=
  { g with state := s }

/-- `this.board[y][x]` for in-range indices; out-of-range reads yield `none`
(JS `undefined` is falsy in the truthiness test, same behavior).  Only
consulted under the `y ≥ 0` guard, matching the source. -/
def cellAt (b : Board) (y x : Int) : Option Piece :=
  (b.getD y.toNat []).getD x.toNat none

/-- `checkCollision(x, y, piece)`: the nested loop with early `return true`
is the `any` over occupied shape cells. -/
def checkCollision (b : Board) (x y : Int) (piece : Shape) : Bool :=
  (List.range piece.length).any fun py =>
    (List.range (piece.getD py []).length).any fun px =>
      if (piece.getD py []).getD px false then
        let newX := x + (px : Int)
        let newY := y + (py : Int)
        if newX < 0 ∨ newX ≥ 10 ∨ newY ≥ 20 then true
        else if 0 ≤ newY ∧ (cellAt b newY newX).isSome then true
        else false
      else false

/-- `movePiece(dx, dy)`: returns the (possibly) moved game and the JS return
value. -/
def movePiece (dx dy : Int) (g : TetrisGame) : TetrisGame × Bool :=
  if checkCollision g.board (g.x + dx) (g.y + dy) g.shape then (g, false)
  else ({ g with x := g.x + dx, y := g.y + dy }, true)

/-- A `movePiece` call whose boolean result is discarded (the `a`/`d` keys). -/
def moveInput (dx dy : Int) (g : TetrisGame) : TetrisGame :=
  (movePiece dx dy g).1

/-- `rotatePiece()` (no wall kicks: the rotation simply fails on collision). -/
def rotatePiece (g : TetrisGame) : TetrisGame :=
  let shapes := PIECES g.pieceType
  let newRotation := (g.rotation + 1) % shapes.length
  let newPiece := shapes.getD newRotation []
  if checkCollision g.board g.x g.y newPiece then g
  else { g with rotation := newRotation, shape := newPiece }

/-- `this.board[boardY][boardX] = this.currentType` for one cell.  `List.set`
is a no-op out of range; the source indexes the 20×10 board directly, and all
reachable placements are in range (the piece position was collision-checked). -/
def setCell (b : Board) (y x : Nat) (t : Piece) : Board :=
  b.set y ((b.getD y []).set x (some t))

/-- The board-writing loop of `placePiece()`: every occupied shape cell with
`boardY = y + py ≥ 0` is written with the piece type. -/
def placeBoard (b : Board) (t : Piece) (shape : Shape) (x y : Int) : Board :=
  (List.range shape.length).foldl
    (fun b1 py =>
      (List.range (shape.getD py []).length).foldl
        (fun b2 px =>
          if (shape.getD py []).getD px false then
            if 0 ≤ y + (py : Int) then
              setCell b2 (y + (py : Int)).toNat (x + (px : Int)).toNat t
            else b2
          else b2)
        b1)
    b

/-- `row.every(cell => cell !== null)` -/
def isFull (r : Row) : Bool := r.all (fun c => c.isSome)

/-- Number of full rows of a board. -/
def countFull (b : Board) : Nat := (b.filter (fun r => isFull r)).length

/-- The `clearLines()` scan: `for (let y = 19; y >= 0; y--)`, where a full row
at `y` is spliced out, a fresh empty row is unshifted at the top, and `y++`
makes the loop re-examine the same index.  `yy` is the remaining index + 1
(so `yy = 20` starts at row 19).  The source always runs this on the 20-row
board, so the index is always in range; the `y < b.length` guard makes the
function total on arbitrary lists. -/
def clearAux (b : Board) (yy : Nat) : Board × Nat :=
  match yy with
  | 0 => (b, 0)
  | y + 1 =>
    if h : y < b.length ∧ isFull (b.getD y []) then
      let r := clearAux (emptyRow :: b.eraseIdx y) (y + 1)
      (r.1, r.2 + 1)
    else
      clearAux b y
termination_by countFull b + yy
decreasing_by
  · have hb : countFull (emptyRow :: b.eraseIdx y) < countFull b := by
      have h1 : isFull emptyRow = false := by decide
      have h2 : countFull (b.eraseIdx y) + 1 = countFull b := by
        obtain ⟨hy, hfull⟩ := h
        clear h1
        induction b generalizing y with
        | nil => simp at hy
        | cons hd tl ih =>
          cases y with
          | zero =>
            simp only [List.getD_cons_zero] at hfull
            simp [countFull, List.eraseIdx, List.filter, hfull]
          | succ y =>
            simp only [List.getD_cons_succ] at hfull
            have hy' : y < tl.length := by simpa using hy
            have := ih y hy' hfull
            simp only [List.eraseIdx_cons_succ, countFull, List.filter] at *
            cases isFull hd <;> simp_all <;> omega
      simp only [countFull, List.filter, h1] at *
      omega
    omega
  · omega

/-- `clearLines()` acting on the board alone: returns the new board and
`linesCleared`. -/
def clearLinesBoard (b : Board) : Board × Nat := clearAux b 20

/-- `const scoreValues = [0, 100, 300, 500, 800]` -/
def scoreValues : List Nat := [0, 100, 300, 500, 800]

/-- `clearLines()` as the engine operation: board scan plus (only when at
least one line cleared) the stats update, in source order: `lines += cleared`,
`score += scoreValues[cleared] * level` (old level), `level =
floor(lines/10) + 1`, `dropTime = max(100, 1000 - (level-1)*100)`. -/
def clearLines (g : TetrisGame) : TetrisGame :=
  let r := clearLinesBoard g.board
  if r.2 > 0 then
    let newLines := g.lines + r.2
    let newLevel := newLines / 10 + 1
    { g with
      board := r.1
      lines := newLines
      score := g.score + scoreValues.getD r.2 0 * g.level
      level := newLevel
      dropTime := max 100 (1000 - ((newLevel : Int) - 1) * 100) }
  else { g with board := r.1 }

/-- `spawnPiece()` with the random draw of `spawnNextPiece()` passed in as
`r`.  On spawn collision the source calls `updateHighScore` (a store side
effect, modelled separately) and enters `GAME_OVER`. -/
def spawnPiece (r : Piece) (g : TetrisGame) : TetrisGame :=
  let t := g.nextType
  let shape := (PIECES t).getD 0 []
  let g1 := { g with
    pieceType := t
    nextType := r
    rotation := 0
    shape := shape
    x := ((10 : Int) - ((shape.getD 0 []).length : Int)) / 2
    y := 0 }
  if checkCollision g1.board g1.x g1.y g1.shape then setState .gameOver g1
  else g1

/-- `placePiece()`: write the piece into the board, clear lines, spawn the
next piece (random draw `r`). -/
def placePiece (r : Piece) (g : TetrisGame) : TetrisGame :=
  spawnPiece r (clearLines { g with
    board := placeBoard g.board g.pieceType g.shape g.x g.y })

/-- The `while (movePiece(0, 1))` loop of `hardDrop()`: count successful
one-row descents until a collision, with a fuel bound.  The source has no
bound; the termination theorem for C10 below certifies that for every
catalog shape the loop stops by collision strictly before the fuel runs
out, so on all reachable inputs this is exactly the loop's count.  A shape
with no occupied cell would make the source loop forever and never occurs. -/
def dropLoop (b : Board) (x : Int) (shape : Shape) : Int → Nat → Nat
  | _, 0 => 0
  | y, f + 1 =>
    if checkCollision b x (y + 1) shape then 0
    else dropLoop b x shape (y + 1) f + 1

/-- The number of rows `hardDrop()` descends from `(x, y)`. -/
def dropDistance (b : Board) (x y : Int) (shape : Shape) : Nat :=
  dropLoop b x shape y ((20 - y).toNat + 1)

/-- `hardDrop()`: drop to the lowest legal position, award `2 * dropped`,
then place. -/
def hardDrop (r : Piece) (g : TetrisGame) : TetrisGame :=
  let d := dropDistance g.board g.x g.y g.shape
  placePiece r { g with y := g.y + d, score := g.score + d * 2 }

/-- The `s`/down-arrow branch of `handleGameInput`: `+1` score on a
successful move, otherwise place. -/
def softDropInput (r : Piece) (g : TetrisGame) : TetrisGame :=
  let m := movePiece 0 1 g
  if m.2 then { m.1 with score := m.1.score + 1 } else placePiece r m.1

/-- One firing of the gravity branch of `startGameLoop`’s timer:
`if (!movePiece(0,1)) placePiece()`, no score change. -/
def gravityTick (r : Piece) (g : TetrisGame) : TetrisGame :=
  let m := movePiece 0 1 g
  if m.2 then m.1 else placePiece r m.1

/-- `startGame()` with the two random draws (`spawnNextPiece()` inside
`startGame` and inside the subsequent `spawnPiece`) passed in. -/
def startGame (r1 r2 : Piece) (g : TetrisGame) : TetrisGame :=
  let g1 := { g with
    board := emptyBoard, score := 0, level := 1, lines := 0,
    dropTime := 1000, nextType := r1 }
  setState .playing (spawnPiece r2 g1)

/-- `handleWelcomeInput` (random draws for the default `startGame` branch). -/
def handleWelcomeInput (r1 r2 : Piece) (k : String) (g : TetrisGame) :
    TetrisGame :=
  if k = "h" then setState .highScores g
  else if k = "a" then setState .accountMenu g
  else startGame r1 r2 g

/-- `handleGameInput` (the final `render()` is output-only). -/
def handleGameInput (r1 r2 : Piece) (k : String) (g : TetrisGame) :
    TetrisGame :=
  if k = "a" ∨ k = "\x1b[d" then moveInput (-1) 0 g
  else if k = "d" ∨ k = "\x1b[c" then moveInput 1 0 g
  else if k = "s" ∨ k = "\x1b[b" then softDropInput r1 g
  else if k = "w" ∨ k = "\x1b[a" then rotatePiece g
  else if k = " " then hardDrop r1 g
  else if k = "p" then setState .paused g
  else if k = "r" then startGame r1 r2 g
  else if k = "h" then setState .highScores g
  else g

/-- `handlePausedInput` -/
def handlePausedInput (k : String) (g : TetrisGame) : TetrisGame :=
  if k = "p" then setState .playing g else g

/-- `handleGameOverInput` -/
def handleGameOverInput (r1 r2 : Piece) (k : String) (g : TetrisGame) :
    TetrisGame :=
  if k = "r" then startGame r1 r2 g
  else if k = "h" then setState .highScores g
  else setState .welcome g

/-- `handleHighScoresInput`: transcribed exactly — note that it tests the
*current screen state* (`this.state`), which is necessarily `HIGH_SCORES`
when this handler is dispatched. -/
def handleHighScoresInput (g : TetrisGame) : TetrisGame :=
  if g.state = ScreenState.playing ∨ g.state = ScreenState.paused then
    setState .playing g
  else setState .welcome g

/-- `handleAccountMenuInput` -/
def handleAccountMenuInput (k : String) (g : TetrisGame) : TetrisGame :=
  if k = "e" then setState .accountExport g
  else if k = "d" then setState .accountDelete g
  else setState .welcome g

/-- `handleAccountDeleteInput`: on `y` the account is deleted (a store side
effect) and the stream is closed after a delay, the screen state staying as
is; any other key returns to the welcome screen. -/
def handleAccountDeleteInput (k : String) (g : TetrisGame) : TetrisGame :=
  if k = "y" then g else setState .welcome g

/-- The `stream.on('data')` dispatcher: lowercased key, quit check first
(`none` = session ended), then the per-screen-state handler. -/
def dispatchKey (r1 r2 : Piece) (k : String) (g : TetrisGame) :
    Option TetrisGame :=
  if k = "q" ∨ k = "\x03" then none
  else some (match g.state with
    | .welcome => handleWelcomeInput r1 r2 k g
    | .playing => handleGameInput r1 r2 k g
    | .paused => handlePausedInput k g
    | .gameOver => handleGameOverInput r1 r2 k g
    | .highScores => handleHighScoresInput g
    | .accountMenu => handleAccountMenuInput k g
    | .accountExport => setState .welcome g
    | .accountDelete => handleAccountDeleteInput k g)

/-- Game states reachable in a session: a game started by `startGame()`,
then closed under key dispatch and gravity ticks (the gravity branch only
runs while the screen state is `PLAYING`). -/
inductive Reach : TetrisGame → Prop
  | start (r1 r2 : Piece) (g : TetrisGame) : Reach (startGame r1 r2 g)
  | key (r1 r2 : Piece) (k : String) (g g' : TetrisGame) :
      Reach g → dispatchKey r1 r2 k g = some g' → Reach g'
  | tick (r : Piece) (g : TetrisGame) :
      Reach g → g.state = ScreenState.playing → Reach (gravityTick r g)

/-! ## Collision characterization -/

/-- Shared helper: `checkCollision` holds exactly when some occupied shape
cell is out of the column range, at or below row 20, or on a non-empty board
cell at a non-negative row. -/
theorem collision_characterization (b : Board) (x y : Int) (piece : Shape) :
    checkCollision b x y piece = true ↔
      ∃ py px : Nat, py < piece.length ∧ px < (piece.getD py []).length ∧
        (piece.getD py []).getD px false = true ∧
        (x + (px : Int) < 0 ∨ x + (px : Int) ≥ 10 ∨ y + (py : Int) ≥ 20 ∨
          (0 ≤ y + (py : Int) ∧
            (cellAt b (y + (py : Int)) (x + (px : Int))).isSome = true)) := by
  unfold checkCollision
  simp only [List.any_eq_true, List.mem_range]
  constructor
  · rintro ⟨py, hpy, px, hpx, h⟩
    refine ⟨py, px, hpy, hpx, ?_⟩
    split at h
    case isTrue hc =>
      refine ⟨hc, ?_⟩
      split at h
      case isTrue h1 => tauto
      case isFalse h1 =>
        split at h
        case isTrue h2 => tauto
        case isFalse h2 => simp at h
    case isFalse hc => simp at h
  · rintro ⟨py, px, hpy, hpx, hc, hcond⟩
    refine ⟨py, hpy, px, hpx, ?_⟩
    rw [if_pos hc]
    by_cases h1 : x + (px : Int) < 0 ∨ x + (px : Int) ≥ 10 ∨ y + (py : Int) ≥ 20
    · simp only [h1, if_true]
    · rw [if_neg h1]
      have h2 : 0 ≤ y + (py : Int) ∧
          (cellAt b (y + (py : Int)) (x + (px : Int))).isSome = true := by tauto
      simp only [h2.1, h2.2, and_self, if_true]

/-- C4: `collides` returns true if and only if some occupied shape cell maps
to a column outside `[0, 10)`, or to a row `≥ 20`, or to a row `≥ 0` whose
board cell is non-empty; occupied cells mapping to rows `< 0` are never
tested against board content (board content appears only under the
`0 ≤ row` guard in the right-hand side). -/
theorem checkCollision_iff (b : Board) (x y : Int) (piece : Shape) :
    checkCollision b x y piece = true ↔
      ∃ py px : Nat, py < piece.length ∧ px < (piece.getD py []).length ∧
        (piece.getD py []).getD px false = true ∧
        (x + (px : Int) < 0 ∨ x + (px : Int) ≥ 10 ∨ y + (py : Int) ≥ 20 ∨
          (0 ≤ y + (py : Int) ∧
            (cellAt b (y + (py : Int)) (x + (px : Int))).isSome = true)) :=
  collision_characterization b x y piece

/-! ## Hard-drop termination -/

/-- The `hardDrop` loop, run with enough fuel, stops at the first colliding
position, never exceeding any `m` whose position collides. -/
theorem dropLoop_le (b : Board) (x : Int) (shape : Shape) :
    ∀ (f : Nat) (y : Int) (m : Nat), m < f →
      checkCollision b x (y + 1 + (m : Int)) shape = true →
      (∀ k < dropLoop b x shape y f,
        checkCollision b x (y + 1 + (k : Int)) shape = false) ∧
      checkCollision b x (y + 1 + (dropLoop b x shape y f : Int)) shape = true ∧
      dropLoop b x shape y f ≤ m := by
  intro f
  induction f with
  | zero => intro y m hm; omega
  | succ f ih =>
    intro y m hm hcoll
    by_cases h1 : checkCollision b x (y + 1) shape = true
    · have hd : dropLoop b x shape y (f + 1) = 0 := by
        simp [dropLoop, h1]
      refine ⟨?_, ?_, ?_⟩
      · intro k hk; omega
      · simpa [hd] using h1
      · omega
    · have hd : dropLoop b x shape y (f + 1) = dropLoop b x shape (y + 1) f + 1 := by
        simp [dropLoop, h1]
      obtain ⟨m', rfl⟩ : ∃ m', m = m' + 1 := by
        rcases m with _ | m'
        · exfalso; apply h1; simpa using hcoll
        · exact ⟨m', rfl⟩
      have hcoll' : checkCollision b x ((y + 1) + 1 + (m' : Int)) shape = true := by
        have : (y + 1) + 1 + (m' : Int) = y + 1 + ((m' + 1 : Nat) : Int) := by
          push_cast; ring
        rw [this]; exact hcoll
      obtain ⟨ihall, ihcoll, ihle⟩ := ih (y + 1) m' (by omega) hcoll'
      refine ⟨?_, ?_, ?_⟩
      · intro k hk
        rcases k with _ | k'
        · simpa using eq_false_of_ne_true h1
        · have : y + 1 + ((k' + 1 : Nat) : Int) = (y + 1) + 1 + (k' : Int) := by
            push_cast; ring
          rw [this]
          exact ihall k' (by omega)
      · have : y + 1 + ((dropLoop b x shape (y + 1) f + 1 : Nat) : Int)
            = (y + 1) + 1 + ((dropLoop b x shape (y + 1) f : Nat) : Int) := by
          push_cast; ring
        rw [hd, this]
        exact ihcoll
      · omega

/-- Every catalog shape has an occupied cell in its first row. -/
theorem catalog_occupied (t : Piece) (shape : Shape) (hs : shape ∈ PIECES t) :
    ∃ px : Nat, px < (shape.getD 0 []).length ∧
      (shape.getD 0 []).getD px false = true := by
  cases t <;> (
    simp only [PIECES, List.mem_cons, List.not_mem_nil, or_false] at hs <;>
    rcases hs with rfl | hs <;>
    first
      | exact ⟨0, by decide, by decide⟩
      | exact ⟨1, by decide, by decide⟩
      | exact ⟨2, by decide, by decide⟩
      | (rcases hs with rfl | hs <;>
         first
           | exact ⟨0, by decide, by decide⟩
           | exact ⟨1, by decide, by decide⟩
           | exact ⟨2, by decide, by decide⟩
           | (rcases hs with rfl | rfl <;>
              first
                | exact ⟨0, by decide, by decide⟩
                | exact ⟨1, by decide, by decide⟩
                | exact ⟨2, by decide, by decide⟩)))

/-- C10: for an active piece whose shape comes from the catalog, the
`hardDrop()` loop stops: every position before `dropDistance` moves freely,
the move from `dropDistance` collides (row 20 is reached at the latest), and
the number of iterations is bounded by `(19 - y)⁺`. -/
theorem hardDrop_bounded (b : Board) (x y : Int) (t : Piece) (shape : Shape)
    (hs : shape ∈ PIECES t) :
    (∀ k < dropDistance b x y shape,
      checkCollision b x (y + 1 + (k : Int)) shape = false) ∧
    checkCollision b x (y + 1 + (dropDistance b x y shape : Int)) shape = true ∧
    dropDistance b x y shape ≤ (19 - y).toNat := by
  obtain ⟨px, hpx, hcell⟩ := catalog_occupied t shape hs
  have hlen : 0 < shape.length := by
    rcases shape with _ | ⟨r, rest⟩
    · simp [List.getD] at hpx
    · simp
  have hm : checkCollision b x (y + 1 + (((19 - y).toNat : Nat) : Int)) shape
      = true := by
    rw [collision_characterization]
    refine ⟨0, px, hlen, hpx, hcell, ?_⟩
    right; right; left
    push_cast
    omega
  have hmf : (19 - y).toNat < (20 - y).toNat + 1 := by omega
  simpa [dropDistance] using
    dropLoop_le b x shape ((20 - y).toNat + 1) y ((19 - y).toNat) hmf hm

/-! ## Line clearing -/

theorem isFull_emptyRow : isFull emptyRow = false := by decide

theorem countFull_cons (r : Row) (b : Board) :
    countFull (r :: b) = (if isFull r then 1 else 0) + countFull b := by
  simp only [countFull, List.filter_cons]
  split <;> simp <;> omega

theorem countFull_append (b1 b2 : Board) :
    countFull (b1 ++ b2) = countFull b1 + countFull b2 := by
  simp [countFull, List.filter_append]

theorem length_filter_not_full (b : Board) :
    (b.filter (fun r => ! isFull r)).length = b.length - countFull b := by
  induction b with
  | nil => simp [countFull]
  | cons r b ih =>
    have hle : countFull b ≤ b.length := List.length_filter_le _ b
    rw [countFull_cons]
    rcases hr : isFull r with _ | _
    · simp [List.filter_cons, hr, ih]
      omega
    · simp [List.filter_cons, hr, ih]
      omega

theorem countFull_le_length (b : Board) : countFull b ≤ b.length :=
  List.length_filter_le _ b

/-- Characterization of the `clearLines()` scan: it removes exactly the full
rows of the scanned prefix, pushes one fresh empty row per removal on top,
keeps the remaining rows in order, and counts the removals. -/
theorem clearAux_eq (b : Board) (yy : Nat) (h : yy ≤ b.length) :
    clearAux b yy =
      (List.replicate (countFull (b.take yy)) emptyRow ++
        (b.take yy).filter (fun r => ! isFull r) ++ b.drop yy,
       countFull (b.take yy)) := by
  induction b, yy using clearAux.induct with
  | case1 b => simp [clearAux, countFull]
  | case2 b y hfull ih =>
    obtain ⟨hy, hf⟩ := hfull
    have hgd : b.getD y [] = b[y] := by
      simp [List.getD_eq_getElem?_getD, List.getElem?_eq_getElem hy]
    have hfb : isFull (b[y]) = true := by rw [← hgd]; exact hf
    have hblen : (emptyRow :: b.eraseIdx y).length = b.length := by
      simp [List.length_eraseIdx, hy]; omega
    have htake : (b.eraseIdx y).take y = b.take y := by
      rw [List.eraseIdx_eq_take_drop_succ]
      exact List.take_left' (by simp [List.length_take]; omega)
    have hdrop : (b.eraseIdx y).drop y = b.drop (y + 1) := by
      rw [List.eraseIdx_eq_take_drop_succ]
      exact List.drop_left' (by simp [List.length_take]; omega)
    have htake' : (emptyRow :: b.eraseIdx y).take (y + 1)
        = emptyRow :: b.take y := by
      simp [List.take_succ_cons, htake]
    have hdrop' : (emptyRow :: b.eraseIdx y).drop (y + 1) = b.drop (y + 1) := by
      simp [List.drop_succ_cons, hdrop]
    have htakeb : b.take (y + 1) = b.take y ++ [b[y]] := by
      rw [List.take_succ, List.getElem?_eq_getElem hy]
      rfl
    have hcf : countFull (b.take (y + 1)) = countFull (b.take y) + 1 := by
      rw [htakeb, countFull_append, countFull_cons, hfb]
      simp [countFull]
    have hcf2 : countFull (emptyRow :: b.take y) = countFull (b.take y) := by
      rw [countFull_cons, isFull_emptyRow]; simp
    have ih' := ih (by omega)
    rw [clearAux, ih']
    split
    case isFalse h' => exact absurd ⟨hy, hf⟩ h'
    case isTrue h' =>
      simp only [Prod.mk.injEq]
      rw [htake', hdrop']
      constructor
      · rw [hcf2, hcf, htakeb]
        simp only [List.filter_cons, List.filter_append, isFull_emptyRow,
          Bool.not_false, if_true, hfb, Bool.not_true, if_false]
        rw [List.replicate_succ']
        simp [List.filter_nil, List.append_assoc]
      · rw [hcf2, hcf]
  | case3 b y hfull ih =>
    have hy : y < b.length := by omega
    have hgd : b.getD y [] = b[y] := by
      simp [List.getD_eq_getElem?_getD, List.getElem?_eq_getElem hy]
    have hf : isFull (b[y]) = false := by
      by_contra hc
      exact hfull ⟨hy, by rw [hgd]; simpa using hc⟩
    have htakeb : b.take (y + 1) = b.take y ++ [b[y]] := by
      rw [List.take_succ, List.getElem?_eq_getElem hy]
      rfl
    have hcf : countFull (b.take (y + 1)) = countFull (b.take y) := by
      rw [htakeb, countFull_append, countFull_cons, hf]
      simp [countFull]
    have hdropb : b.drop y = b[y] :: b.drop (y + 1) :=
      List.drop_eq_getElem_cons hy
    have ih' := ih (by omega)
    rw [clearAux]
    split
    case isTrue h' => exact absurd h' hfull
    case isFalse h' =>
      rw [ih']
      simp only [Prod.mk.injEq]
      constructor
      · rw [hcf, htakeb, hdropb]
        simp only [List.filter_append, List.filter_cons, List.filter_nil,
          hf, Bool.not_false, ite_true, List.append_assoc, List.cons_append,
          List.singleton_append, List.nil_append, Nat.succ_eq_add_one]
      · rw [hcf]

/-- `clearLines()` on a 20-row board: the new board is the non-full rows,
shifted down under one fresh empty row per cleared line, and the count is the
number of full rows. -/
theorem clearLinesBoard_eq (b : Board) (h : b.length = 20) :
    clearLinesBoard b =
      (List.replicate (countFull b) emptyRow ++
        b.filter (fun r => ! isFull r),
       countFull b) := by
  unfold clearLinesBoard
  rw [clearAux_eq b 20 (by omega)]
  rw [List.take_of_length_le (by omega), List.drop_eq_nil_of_le (by omega)]
  simp

/-! ## Placement -/

theorem length_setCell (b : Board) (j i : Nat) (t : Piece) :
    (setCell b j i t).length = b.length := by
  simp [setCell]

theorem rows_setCell (b : Board) (j i : Nat) (t : Piece)
    (hb : ∀ r ∈ b, r.length = 10) :
    ∀ r ∈ setCell b j i t, r.length = 10 := by
  intro r hr
  by_cases hj : j < b.length
  · rcases List.mem_or_eq_of_mem_set hr with h | rfl
    · exact hb r h
    · rw [List.length_set]
      have hg : b.getD j [] = b[j] := by
        simp [List.getD_eq_getElem?_getD, List.getElem?_eq_getElem hj]
      rw [hg]
      exact hb _ (List.getElem_mem hj)
  · rw [setCell, List.set_eq_of_length_le (by omega)] at hr
    exact hb r hr

/-- Each row-write pass of `placePiece` leaves the board unchanged or
rewrites a single row in place. -/
theorem foldl_setCell_shape (j : Nat) (t : Piece) (P : Nat → Prop)
    [DecidablePred P] (f : Nat → Nat) :
    ∀ (L : List Nat) (b : Board),
      L.foldl (fun b2 px => if P px then setCell b2 j (f px) t else b2) b = b
      ∨ ∃ r', L.foldl (fun b2 px => if P px then setCell b2 j (f px) t else b2) b
          = b.set j r' := by
  intro L
  induction L with
  | nil => intro b; left; rfl
  | cons a L ih =>
    intro b
    simp only [List.foldl_cons]
    by_cases hP : P a
    · rw [if_pos hP]
      rcases ih (setCell b j (f a) t) with h | ⟨r', h⟩
      · right; exact ⟨_, h⟩
      · right
        refine ⟨r', ?_⟩
        simp only [setCell] at h ⊢
        rw [h, List.set_set]
    · rw [if_neg hP]
      exact ih b

theorem countFull_set_le (b : Board) (j : Nat) (r : Row) :
    countFull (b.set j r) ≤ countFull b + 1 := by
  induction b generalizing j with
  | nil => simp [countFull]
  | cons hd tl ih =>
    cases j with
    | zero =>
      rw [List.set_cons_zero, countFull_cons, countFull_cons]
      split <;> split <;> omega
    | succ j =>
      rw [List.set_cons_succ, countFull_cons, countFull_cons]
      have := ih j
      omega

/-- Placing one piece can only create as many new full rows as the shape has
rows. -/
theorem countFull_placeBoard_le (b : Board) (t : Piece) (shape : Shape)
    (x y : Int) :
    countFull (placeBoard b t shape x y) ≤ countFull b + shape.length := by
  unfold placeBoard
  have main : ∀ (L : List Nat) (b0 : Board),
      countFull (L.foldl
        (fun b1 py =>
          (List.range (shape.getD py []).length).foldl
            (fun b2 px =>
              if (shape.getD py []).getD px false then
                if 0 ≤ y + (py : Int) then
                  setCell b2 (y + (py : Int)).toNat (x + (px : Int)).toNat t
                else b2
              else b2)
            b1)
        b0) ≤ countFull b0 + L.length := by
    intro L
    induction L with
    | nil => intro b0; simp
    | cons a L ih =>
      intro b0
      simp only [List.foldl_cons, List.length_cons]
      set step := (List.range (shape.getD a []).length).foldl
        (fun b2 px =>
          if (shape.getD a []).getD px false then
            if 0 ≤ y + (a : Int) then
              setCell b2 (y + (a : Int)).toNat (x + (px : Int)).toNat t
            else b2
          else b2) b0 with hstep
      have hone : countFull step ≤ countFull b0 + 1 := by
        by_cases hguard : 0 ≤ y + (a : Int)
        · have := foldl_setCell_shape ((y + (a : Int)).toNat) t
            (fun px => (shape.getD a []).getD px false = true)
            (fun px => (x + (px : Int)).toNat)
            (List.range (shape.getD a []).length) b0
          rw [hstep]
          have hrw : (fun (b2 : Board) (px : Nat) =>
              if (shape.getD a []).getD px false then
                if 0 ≤ y + (a : Int) then
                  setCell b2 (y + (a : Int)).toNat (x + (px : Int)).toNat t
                else b2
              else b2) = (fun (b2 : Board) (px : Nat) =>
              if (shape.getD a []).getD px false = true then
                setCell b2 (y + (a : Int)).toNat (x + (px : Int)).toNat t
              else b2) := by
            funext b2 px
            by_cases hc : (shape.getD a []).getD px false = true <;>
              simp [hc, hguard]
          rw [hrw]
          rcases this with h | ⟨r', h⟩
          · rw [h]; omega
          · rw [h]
            have := countFull_set_le b0 ((y + (a : Int)).toNat) r'
            omega
        · have hrw : (fun (b2 : Board) (px : Nat) =>
              if (shape.getD a []).getD px false then
                if 0 ≤ y + (a : Int) then
                  setCell b2 (y + (a : Int)).toNat (x + (px : Int)).toNat t
                else b2
              else b2) = (fun (b2 : Board) (px : Nat) => b2) := by
            funext b2 px
            by_cases hc : (shape.getD a []).getD px false = true <;>
              simp [hc, hguard]
          rw [hstep, hrw, List.foldl_fixed]
          omega
      have := ih step
      omega
  have := main (List.range shape.length) b
  simpa using this

theorem length_placeBoard (b : Board) (t : Piece) (shape : Shape) (x y : Int) :
    (placeBoard b t shape x y).length = b.length := by
  unfold placeBoard
  have main : ∀ (L1 : List Nat) (b0 : Board),
      (L1.foldl
        (fun b1 py =>
          (List.range (shape.getD py []).length).foldl
            (fun b2 px =>
              if (shape.getD py []).getD px false then
                if 0 ≤ y + (py : Int) then
                  setCell b2 (y + (py : Int)).toNat (x + (px : Int)).toNat t
                else b2
              else b2)
            b1)
        b0).length = b0.length := by
    intro L1
    induction L1 with
    | nil => intro b0; rfl
    | cons a L ih =>
      intro b0
      simp only [List.foldl_cons]
      rw [ih]
      have inner : ∀ (L2 : List Nat) (b1 : Board),
          (L2.foldl
            (fun b2 px =>
              if (shape.getD a []).getD px false then
                if 0 ≤ y + (a : Int) then
                  setCell b2 (y + (a : Int)).toNat (x + (px : Int)).toNat t
                else b2
              else b2)
            b1).length = b1.length := by
        intro L2
        induction L2 with
        | nil => intro b1; rfl
        | cons c L2 ih2 =>
          intro b1
          simp only [List.foldl_cons]
          rw [ih2]
          split
          · split
            · rw [length_setCell]
            · rfl
          · rfl
      exact inner _ b0
  exact main _ b

theorem rows_placeBoard (b : Board) (t : Piece) (shape : Shape) (x y : Int)
    (hb : ∀ r ∈ b, r.length = 10) :
    ∀ r ∈ placeBoard b t shape x y, r.length = 10 := by
  unfold placeBoard
  have main : ∀ (L1 : List Nat) (b0 : Board), (∀ r ∈ b0, r.length = 10) →
      ∀ r ∈ (L1.foldl
        (fun b1 py =>
          (List.range (shape.getD py []).length).foldl
            (fun b2 px =>
              if (shape.getD py []).getD px false then
                if 0 ≤ y + (py : Int) then
                  setCell b2 (y + (py : Int)).toNat (x + (px : Int)).toNat t
                else b2
              else b2)
            b1)
        b0), r.length = 10 := by
    intro L1
    induction L1 with
    | nil => intro b0 h0; exact h0
    | cons a L ih =>
      intro b0 h0
      simp only [List.foldl_cons]
      apply ih
      have inner : ∀ (L2 : List Nat) (b1 : Board), (∀ r ∈ b1, r.length = 10) →
          ∀ r ∈ (L2.foldl
            (fun b2 px =>
              if (shape.getD a []).getD px false then
                if 0 ≤ y + (a : Int) then
                  setCell b2 (y + (a : Int)).toNat (x + (px : Int)).toNat t
                else b2
              else b2)
            b1), r.length = 10 := by
        intro L2
        induction L2 with
        | nil => intro b1 h1; exact h1
        | cons c L2 ih2 =>
          intro b1 h1
          simp only [List.foldl_cons]
          apply ih2
          split
          · split
            · exact rows_setCell _ _ _ _ h1
            · exact h1
          · exact h1
      exact inner _ b0 h0
  exact main _ b hb

/-- All catalog shapes have at most 4 rows. -/
theorem catalog_height_le (t : Piece) (shape : Shape) (hs : shape ∈ PIECES t) :
    shape.length ≤ 4 := by
  cases t <;> (
    simp only [PIECES, List.mem_cons, List.not_mem_nil, or_false] at hs <;>
    rcases hs with rfl | rfl | rfl | rfl <;> decide)

/-- C5: `clearFullLines` removes exactly the full rows, inserts one fresh
empty row at the top per removed row, keeps all remaining rows in their
relative order (shifted down under the new empty rows), and returns the
number of removed rows — at most 4 for a single catalog-piece placement on a
board with no full rows. -/
theorem clearLines_spec :
    (∀ b : Board, b.length = 20 →
      clearLinesBoard b =
        (List.replicate (countFull b) emptyRow ++
          b.filter (fun r => ! isFull r), countFull b)) ∧
    (∀ (b : Board) (t : Piece) (shape : Shape) (x y : Int),
      b.length = 20 → countFull b = 0 → shape ∈ PIECES t →
      (clearLinesBoard (placeBoard b t shape x y)).2 ≤ 4) := by
  constructor
  · exact clearLinesBoard_eq
  · intro b t shape x y hlen hcf hs
    have h1 : (placeBoard b t shape x y).length = 20 := by
      rw [length_placeBoard, hlen]
    rw [clearLinesBoard_eq _ h1]
    have h2 := countFull_placeBoard_le b t shape x y
    have h3 := catalog_height_le t shape hs
    simp only
    omega

/-- Witness for `clearLines_spec` at concrete inputs. -/
theorem clearLines_spec_witness :
    clearLinesBoard emptyBoard =
      (List.replicate (countFull emptyBoard) emptyRow ++
        emptyBoard.filter (fun r => ! isFull r), countFull emptyBoard) ∧
    (clearLinesBoard (placeBoard emptyBoard Piece.I
      [[true, true, true, true]] 3 0)).2 ≤ 4 :=
  ⟨clearLines_spec.1 emptyBoard (by decide),
   clearLines_spec.2 emptyBoard Piece.I [[true, true, true, true]] 3 0
     (by decide) (by decide) (by decide)⟩

/-! ## Leaderboard -/

/-- Score order used by the sort comparator `(a, b) => b.score - a.score`. -/
instance : IsTotal HighScoreEntry (fun a b => b.score ≤ a.score) :=
  ⟨fun a b => Nat.le_total b.score a.score⟩

instance : IsTrans HighScoreEntry (fun a b => b.score ≤ a.score) :=
  ⟨fun _ _ _ hab hbc => Nat.le_trans hbc hab⟩

theorem sortDesc_sorted (l : List HighScoreEntry) :
    (sortDesc l).Pairwise (fun a b => b.score ≤ a.score) :=
  List.sorted_insertionSort _ l

theorem sortDesc_perm (l : List HighScoreEntry) :
    List.Perm (sortDesc l) l :=
  List.perm_insertionSort _ l

theorem sortDesc_eq_of_sorted {l : List HighScoreEntry}
    (h : l.Pairwise (fun a b => b.score ≤ a.score)) : sortDesc l = l :=
  List.Sorted.insertionSort_eq h

/-- The leaderboard invariant maintained by `updateHighScore`. -/
def lbInv (l : List HighScoreEntry) : Prop :=
  (l.map (fun e => e.playerId)).Nodup ∧
  l.Pairwise (fun a b => b.score ≤ a.score) ∧
  l.length ≤ 50

theorem lbInv_nil : lbInv [] := by
  refine ⟨by simp, by simp, by simp⟩

theorem set_getElem_self {α : Type} (l : List α) (i : Nat) (a : α)
    (hi : i < l.length) (ha : l[i] = a) : l.set i a = l := by
  apply List.ext_getElem (by simp)
  intro n h1 h2
  rw [List.getElem_set]
  split
  · next h => exact h ▸ ha.symm
  · rfl

theorem lbInv_updateHighScore (l : List HighScoreEntry) (e : HighScoreEntry)
    (h : lbInv l) : lbInv (updateHighScore l e) := by
  obtain ⟨hnd, _, _⟩ := h
  have key : ∀ l1 : List HighScoreEntry,
      (l1.map (fun x => x.playerId)).Nodup → lbInv (((sortDesc l1).take
        (min 50 MAX_HIGHSCORE_ENTRIES))) := by
    intro l1 hnd1
    refine ⟨?_, ?_, ?_⟩
    · have hperm : List.Perm ((sortDesc l1).map (fun x => x.playerId))
          (l1.map (fun x => x.playerId)) := (sortDesc_perm l1).map _
      have hnds : ((sortDesc l1).map (fun x => x.playerId)).Nodup :=
        hperm.symm.nodup hnd1
      have hsub : List.Sublist
          (((sortDesc l1).take (min 50 MAX_HIGHSCORE_ENTRIES)).map
            (fun x => x.playerId))
          ((sortDesc l1).map (fun x => x.playerId)) :=
        (List.take_sublist _ _).map _
      exact hsub.nodup hnds
    · exact List.Pairwise.sublist (List.take_sublist _ _) (sortDesc_sorted l1)
    · calc ((sortDesc l1).take (min 50 MAX_HIGHSCORE_ENTRIES)).length
          ≤ min 50 MAX_HIGHSCORE_ENTRIES := List.length_take_le _ _
        _ ≤ 50 := by decide
  rcases hfind : l.findIdx? (fun entry => entry.playerId == e.playerId) with
    _ | i
  · have heq : updateHighScore l e =
        (sortDesc (l ++ [e])).take (min 50 MAX_HIGHSCORE_ENTRIES) := by
      unfold updateHighScore; rw [hfind]
    rw [heq]
    apply key
    have hnone := List.findIdx?_eq_none_iff.mp hfind
    rw [List.map_append]
    apply List.Nodup.append hnd (by simp)
    intro a ha hb
    simp only [List.map_cons, List.map_nil, List.mem_singleton] at hb
    obtain ⟨x, hx, rfl⟩ := List.mem_map.mp ha
    have hx2 := hnone x hx
    rw [hb] at hx2
    simp at hx2
  · by_cases hgt : e.score > (l.getD i default).score
    · have heq : updateHighScore l e =
          (sortDesc (l.set i e)).take (min 50 MAX_HIGHSCORE_ENTRIES) := by
        unfold updateHighScore; rw [hfind]
        show List.take (min 50 MAX_HIGHSCORE_ENTRIES)
          (sortDesc (if e.score > (l.getD i default).score then l.set i e
            else l)) = _
        rw [if_pos hgt]
      rw [heq]
      apply key
      obtain ⟨hi, hp, _⟩ := List.findIdx?_eq_some_iff_getElem.mp hfind
      have hpid : l[i].playerId = e.playerId := by
        simpa using hp
      rw [List.map_set]
      rw [set_getElem_self _ i _ (by simpa using hi) (by simpa using hpid)]
      exact hnd
    · have heq : updateHighScore l e =
          (sortDesc l).take (min 50 MAX_HIGHSCORE_ENTRIES) := by
        unfold updateHighScore; rw [hfind]
        show List.take (min 50 MAX_HIGHSCORE_ENTRIES)
          (sortDesc (if e.score > (l.getD i default).score then l.set i e
            else l)) = _
        rw [if_neg hgt]
      rw [heq]
      exact key l hnd

/-- Leaderboards reachable from the empty initial store by a sequence of
game-over upserts satisfy the invariant. -/
theorem lbInv_foldl (es : List HighScoreEntry) :
    lbInv (es.foldl updateHighScore []) := by
  suffices h : ∀ (es : List HighScoreEntry) (l : List HighScoreEntry),
      lbInv l → lbInv (es.foldl updateHighScore l) by
    exact h es [] lbInv_nil
  intro es
  induction es with
  | nil => intro l hl; exact hl
  | cons e es ih =>
    intro l hl
    exact ih _ (lbInv_updateHighScore l e hl)

/-- Entries used in concrete leaderboard scenarios: 51 distinct players with
distinct descending scores. -/
def cexEntry (i : Nat) : HighScoreEntry :=
  { playerId := "p" ++ toString i, playerName := "player" ++ toString i
    score := 1000 - i, level := 1, lines := 0, date := "2024-01-01" }

set_option maxRecDepth 100000 in
/-- C1 counterexample: upserting 51 distinct players (well under
`MAX_HIGHSCORE_ENTRIES = 100`, so by the claim no entry may be evicted and
all 51 must remain) leaves only 50 entries — `updateHighScore` truncates
with `Math.min(50, MAX_HIGHSCORE_ENTRIES)`, not with 100. -/
theorem updateHighScore_caps_at_50 :
    (((List.range 51).map cexEntry).foldl updateHighScore []).length = 50 ∧
    51 ≤ MAX_HIGHSCORE_ENTRIES := by
  constructor
  · rfl
  · decide

/-- The sort used by `updateHighScore` never reorders entries with equal
scores: for each score value, the tied entries appear in the sorted list in
exactly the order they had before the sort (stability of the model of
`Array.prototype.sort` with the score comparator). -/
theorem filter_orderedInsert (a : HighScoreEntry) (l : List HighScoreEntry)
    (c : Nat) :
    (l.orderedInsert (fun x y => y.score ≤ x.score) a).filter
      (fun e => e.score == c) =
    ((a :: l).filter (fun e => e.score == c)) := by
  induction l with
  | nil => rfl
  | cons b l ih =>
    show (if b.score ≤ a.score then a :: b :: l
      else b :: l.orderedInsert (fun x y => y.score ≤ x.score) a).filter
        (fun e => e.score == c) = _
    by_cases hr : b.score ≤ a.score
    · rw [if_pos hr]
    · rw [if_neg hr]
      have hba : a.score < b.score := Nat.not_le.mp hr
      by_cases ha : (a.score == c) = true <;> by_cases hb : (b.score == c) = true
      · rw [beq_iff_eq] at ha hb
        omega
      · simp only [List.filter_cons, ih, List.filter_cons, ha, hb,
          if_true, if_false]
        simp [ha, hb]
      · simp only [List.filter_cons, ih, List.filter_cons, ha, hb]
        simp [ha, hb]
      · simp only [List.filter_cons, ih, List.filter_cons, ha, hb]
        simp [ha, hb]

theorem sortDesc_stable (l : List HighScoreEntry) (c : Nat) :
    (sortDesc l).filter (fun e => e.score == c) =
      l.filter (fun e => e.score == c) := by
  induction l with
  | nil => rfl
  | cons a l ih =>
    show ((sortDesc l).orderedInsert (fun x y => y.score ≤ x.score) a).filter
        (fun e => e.score == c) = _
    rw [filter_orderedInsert]
    simp only [List.filter_cons, ih]

/-- C1 (amended): after any sequence of game-over finalization upserts
starting from the empty store, the leaderboard holds at most one entry per
playerId, is ordered by score descending, and is truncated to the top
`min(50, MAX_HIGHSCORE_ENTRIES) = 50` entries; moreover the re-sort used by
the upsert is stable — entries with equal scores keep their prior relative
order. -/
theorem leaderboard_invariant (es : List HighScoreEntry) :
    (((es.foldl updateHighScore []).map (fun e => e.playerId)).Nodup ∧
     (es.foldl updateHighScore []).Pairwise (fun a b => b.score ≤ a.score) ∧
     (es.foldl updateHighScore []).length ≤ 50) ∧
    (∀ (l : List HighScoreEntry) (c : Nat),
      (sortDesc l).filter (fun e => e.score == c) =
        l.filter (fun e => e.score == c)) :=
  ⟨lbInv_foldl es, fun l c => sortDesc_stable l c⟩

/-- C6: an upsert for a player who already has an entry, with a score not
strictly above that entry's score, leaves the leaderboard unchanged (stated
for the leaderboards reachable from the empty store, which carry the
maintained sortedness and size bound). -/
theorem updateHighScore_idempotent (es : List HighScoreEntry)
    (e : HighScoreEntry) (i : Nat)
    (hfind : (es.foldl updateHighScore []).findIdx?
      (fun entry => entry.playerId == e.playerId) = some i)
    (hle : e.score ≤ ((es.foldl updateHighScore []).getD i default).score) :
    updateHighScore (es.foldl updateHighScore []) e =
      es.foldl updateHighScore [] := by
  obtain ⟨hnd, hsorted, hlen⟩ := lbInv_foldl es
  set L := es.foldl updateHighScore [] with hL
  have heq : updateHighScore L e =
      (sortDesc L).take (min 50 MAX_HIGHSCORE_ENTRIES) := by
    unfold updateHighScore
    rw [hfind]
    show List.take (min 50 MAX_HIGHSCORE_ENTRIES)
      (sortDesc (if e.score > (L.getD i default).score then L.set i e
        else L)) = _
    rw [if_neg (by omega)]
  rw [heq, sortDesc_eq_of_sorted hsorted,
    List.take_of_length_le (by
      have h50 : min 50 MAX_HIGHSCORE_ENTRIES = 50 := by decide
      omega)]

def wEntry1 : HighScoreEntry :=
  { playerId := "w", playerName := "w", score := 10, level := 1, lines := 0
    date := "d1" }

def wEntry2 : HighScoreEntry :=
  { playerId := "w", playerName := "w", score := 7, level := 2, lines := 3
    date := "d2" }

/-- Witness for `updateHighScore_idempotent` at a concrete leaderboard. -/
theorem updateHighScore_idempotent_witness :
    updateHighScore ([wEntry1].foldl updateHighScore []) wEntry2 =
      [wEntry1].foldl updateHighScore [] :=
  updateHighScore_idempotent [wEntry1] wEntry2 0 (by decide) (by decide)

/-! ## Screen state machine: the leaderboard screen -/

/-- C2 (code behavior): while the screen state is `HIGH_SCORES`, every
non-quit key leads to `WELCOME`.  `handleHighScoresInput` tests
`this.state === PLAYING || this.state === PAUSED`, but it only runs when
`this.state` is `HIGH_SCORES`, so the "resume the game" branch is dead and
the state machine never returns to `PLAYING` from the leaderboard, whether or
not a paused/active game exists. -/
theorem highScores_always_welcome (r1 r2 : Piece) (k : String)
    (g : TetrisGame) (hst : g.state = ScreenState.highScores)
    (hk : ¬(k = "q" ∨ k = "\x03")) :
    dispatchKey r1 r2 k g = some (setState ScreenState.welcome g) := by
  unfold dispatchKey handleHighScoresInput
  rw [if_neg hk, hst]
  simp

/-- Witness for `highScores_always_welcome`: the leaderboard screen was
entered from a running game (so a paused/active game exists), yet pressing
`x` goes to the welcome screen. -/
theorem highScores_always_welcome_witness :
    dispatchKey Piece.I Piece.I "x"
      (setState ScreenState.highScores (startGame Piece.I Piece.I default)) =
    some (setState ScreenState.welcome
      (setState ScreenState.highScores (startGame Piece.I Piece.I default))) :=
  highScores_always_welcome Piece.I Piece.I "x"
    (setState ScreenState.highScores (startGame Piece.I Piece.I default))
    rfl (by decide)

/-! ## Soft drop vs. gravity -/

theorem movePiece_fst_of_fail (dx dy : Int) (g : TetrisGame)
    (h : (movePiece dx dy g).2 = false) : (movePiece dx dy g).1 = g := by
  unfold movePiece at *
  by_cases hc : checkCollision g.board (g.x + dx) (g.y + dy) g.shape = true
  · rw [if_pos hc]
  · rw [if_neg hc] at h
    simp at h

/-- C3 counterexample: from a freshly started game (empty board, `I` piece at
the top), one firing of the gravity timer moves the piece down one row and
leaves the score unchanged — it does not add the 1 point that the player
soft-drop path adds. -/
theorem gravity_no_score_cex :
    (movePiece 0 1 (startGame Piece.I Piece.O default)).2 = true ∧
    (gravityTick Piece.T (startGame Piece.I Piece.O default)).y =
      (startGame Piece.I Piece.O default).y + 1 ∧
    (gravityTick Piece.T (startGame Piece.I Piece.O default)).score =
      (startGame Piece.I Piece.O default).score ∧
    (softDropInput Piece.T (startGame Piece.I Piece.O default)).score =
      (startGame Piece.I Piece.O default).score + 1 ∧
    ¬((gravityTick Piece.T (startGame Piece.I Piece.O default)).score =
      (startGame Piece.I Piece.O default).score + 1) := by
  decide

/-- C3 (amended): the gravity tick and the player soft-drop perform the same
one-row downward move, and on a failed move both lock the piece through the
same `placePiece` path; they differ only in that a successful player
soft-drop adds exactly 1 to the score while a successful gravity descent
leaves the score unchanged. -/
theorem softDrop_gravity_relation (r : Piece) (g : TetrisGame) :
    softDropInput r g =
      (if (movePiece 0 1 g).2 then
        { gravityTick r g with score := (gravityTick r g).score + 1 }
      else gravityTick r g) ∧
    gravityTick r g =
      (if (movePiece 0 1 g).2 then (movePiece 0 1 g).1
       else placePiece r g) := by
  have hg : gravityTick r g =
      (if (movePiece 0 1 g).2 then (movePiece 0 1 g).1
       else placePiece r g) := by
    unfold gravityTick
    by_cases h : (movePiece 0 1 g).2
    · rw [if_pos h, if_pos h]
    · rw [Bool.not_eq_true] at h
      rw [if_neg (by simp [h]), if_neg (by simp [h]),
        movePiece_fst_of_fail 0 1 g h]
  refine ⟨?_, hg⟩
  unfold softDropInput
  by_cases h : (movePiece 0 1 g).2
  · rw [if_pos h, if_pos h, hg, if_pos h]
  · rw [Bool.not_eq_true] at h
    rw [if_neg (by simp [h]), if_neg (by simp [h]), hg, if_neg (by simp [h]),
      movePiece_fst_of_fail 0 1 g h]

/-! ## Game-state invariant -/

/-- Board shape and stats invariant of the game engine: 20 rows of 10
cells, `level = ⌊lines/10⌋ + 1`, and the drop interval formula. -/
def Inv (g : TetrisGame) : Prop :=
  g.board.length = 20 ∧ (∀ r ∈ g.board, r.length = 10) ∧
  g.level = g.lines / 10 + 1 ∧
  g.dropTime = max 100 (1000 - ((g.level : Int) - 1) * 100)

theorem spawnPiece_fields (r : Piece) (g : TetrisGame) :
    (spawnPiece r g).board = g.board ∧ (spawnPiece r g).score = g.score ∧
    (spawnPiece r g).level = g.level ∧ (spawnPiece r g).lines = g.lines ∧
    (spawnPiece r g).dropTime = g.dropTime := by
  unfold spawnPiece setState
  dsimp only
  split <;> exact ⟨rfl, rfl, rfl, rfl, rfl⟩

theorem movePiece_fst_fields (dx dy : Int) (g : TetrisGame) :
    (movePiece dx dy g).1.board = g.board ∧
    (movePiece dx dy g).1.score = g.score ∧
    (movePiece dx dy g).1.level = g.level ∧
    (movePiece dx dy g).1.lines = g.lines ∧
    (movePiece dx dy g).1.dropTime = g.dropTime ∧
    (movePiece dx dy g).1.state = g.state := by
  unfold movePiece
  split <;> exact ⟨rfl, rfl, rfl, rfl, rfl, rfl⟩

theorem rotatePiece_fields (g : TetrisGame) :
    (rotatePiece g).board = g.board ∧ (rotatePiece g).score = g.score ∧
    (rotatePiece g).level = g.level ∧ (rotatePiece g).lines = g.lines ∧
    (rotatePiece g).dropTime = g.dropTime ∧
    (rotatePiece g).state = g.state := by
  unfold rotatePiece
  dsimp only
  split <;> exact ⟨rfl, rfl, rfl, rfl, rfl, rfl⟩

theorem Inv_of_fields {g g' : TetrisGame} (h : Inv g)
    (hb : g'.board = g.board) (hlv : g'.level = g.level)
    (hln : g'.lines = g.lines) (hdt : g'.dropTime = g.dropTime) : Inv g' := by
  obtain ⟨h1, h2, h3, h4⟩ := h
  exact ⟨by rw [hb]; exact h1, by rw [hb]; exact h2,
    by rw [hlv, hln]; exact h3, by rw [hdt, hlv]; exact h4⟩

theorem Inv_setState (s : ScreenState) (g : TetrisGame) (h : Inv g) :
    Inv (setState s g) :=
  Inv_of_fields h rfl rfl rfl rfl

theorem Inv_spawnPiece (r : Piece) (g : TetrisGame) (h : Inv g) :
    Inv (spawnPiece r g) := by
  obtain ⟨hb, _, hlv, hln, hdt⟩ := spawnPiece_fields r g
  exact Inv_of_fields h hb hlv hln hdt

theorem Inv_moveFst (dx dy : Int) (g : TetrisGame) (h : Inv g) :
    Inv (movePiece dx dy g).1 := by
  obtain ⟨hb, _, hlv, hln, hdt, _⟩ := movePiece_fst_fields dx dy g
  exact Inv_of_fields h hb hlv hln hdt

theorem Inv_moveInput (dx dy : Int) (g : TetrisGame) (h : Inv g) :
    Inv (moveInput dx dy g) :=
  Inv_moveFst dx dy g h

theorem Inv_rotatePiece (g : TetrisGame) (h : Inv g) : Inv (rotatePiece g) := by
  obtain ⟨hb, _, hlv, hln, hdt, _⟩ := rotatePiece_fields g
  exact Inv_of_fields h hb hlv hln hdt

theorem Inv_clearLines (g : TetrisGame) (h : Inv g) : Inv (clearLines g) := by
  obtain ⟨h1, h2, h3, h4⟩ := h
  have hb := clearLinesBoard_eq g.board h1
  have hlen2 : (clearLinesBoard g.board).1.length = 20 := by
    rw [hb]
    have hc := countFull_le_length g.board
    simp only [List.length_append, List.length_replicate,
      length_filter_not_full]
    omega
  have hrows2 : ∀ r ∈ (clearLinesBoard g.board).1, r.length = 10 := by
    rw [hb]
    intro r hr
    simp only at hr
    rcases List.mem_append.mp hr with hm | hm
    · rw [List.eq_of_mem_replicate hm]; rfl
    · exact h2 r (List.mem_filter.mp hm).1
  unfold clearLines
  by_cases hpos : (clearLinesBoard g.board).2 > 0
  · rw [if_pos hpos]
    exact ⟨hlen2, hrows2, rfl, rfl⟩
  · rw [if_neg hpos]
    exact ⟨hlen2, hrows2, h3, h4⟩

theorem Inv_placePiece (r : Piece) (g : TetrisGame) (h : Inv g) :
    Inv (placePiece r g) := by
  obtain ⟨h1, h2, h3, h4⟩ := h
  unfold placePiece
  apply Inv_spawnPiece
  apply Inv_clearLines
  refine ⟨?_, ?_, h3, h4⟩
  · rw [length_placeBoard]; exact h1
  · exact rows_placeBoard g.board g.pieceType g.shape g.x g.y h2

theorem Inv_softDropInput (r : Piece) (g : TetrisGame) (h : Inv g) :
    Inv (softDropInput r g) := by
  unfold softDropInput
  dsimp only
  split
  · obtain ⟨hb, _, hlv, hln, hdt, _⟩ := movePiece_fst_fields 0 1 g
    exact Inv_of_fields h hb hlv hln hdt
  · exact Inv_placePiece r _ (Inv_moveFst 0 1 g h)

theorem Inv_gravityTick (r : Piece) (g : TetrisGame) (h : Inv g) :
    Inv (gravityTick r g) := by
  unfold gravityTick
  dsimp only
  split
  · exact Inv_moveFst 0 1 g h
  · exact Inv_placePiece r _ (Inv_moveFst 0 1 g h)

theorem Inv_hardDrop (r : Piece) (g : TetrisGame) (h : Inv g) :
    Inv (hardDrop r g) := by
  unfold hardDrop
  apply Inv_placePiece
  exact Inv_of_fields h rfl rfl rfl rfl

theorem Inv_startGame (r1 r2 : Piece) (g : TetrisGame) :
    Inv (startGame r1 r2 g) := by
  unfold startGame
  apply Inv_setState
  apply Inv_spawnPiece
  refine ⟨rfl, ?_, by norm_num, by norm_num⟩
  intro r hr
  rw [List.eq_of_mem_replicate hr]
  rfl

theorem Inv_handleGameInput (r1 r2 : Piece) (k : String) (g : TetrisGame)
    (h : Inv g) : Inv (handleGameInput r1 r2 k g) := by
  unfold handleGameInput
  split
  · exact Inv_moveInput _ _ g h
  split
  · exact Inv_moveInput _ _ g h
  split
  · exact Inv_softDropInput r1 g h
  split
  · exact Inv_rotatePiece g h
  split
  · exact Inv_hardDrop r1 g h
  split
  · exact Inv_setState _ g h
  split
  · exact Inv_startGame r1 r2 g
  split
  · exact Inv_setState _ g h
  exact h

theorem Inv_dispatchKey (r1 r2 : Piece) (k : String) (g g' : TetrisGame)
    (h : Inv g) (hd : dispatchKey r1 r2 k g = some g') : Inv g' := by
  unfold dispatchKey at hd
  split at hd
  · exact absurd hd (by simp)
  · rw [Option.some_inj] at hd
    subst hd
    cases g.state
    case welcome =>
      show Inv (handleWelcomeInput r1 r2 k g)
      unfold handleWelcomeInput
      split
      · exact Inv_setState _ g h
      split
      · exact Inv_setState _ g h
      exact Inv_startGame r1 r2 g
    case playing =>
      show Inv (handleGameInput r1 r2 k g)
      exact Inv_handleGameInput r1 r2 k g h
    case paused =>
      show Inv (handlePausedInput k g)
      unfold handlePausedInput
      split
      · exact Inv_setState _ g h
      · exact h
    case gameOver =>
      show Inv (handleGameOverInput r1 r2 k g)
      unfold handleGameOverInput
      split
      · exact Inv_startGame r1 r2 g
      split
      · exact Inv_setState _ g h
      exact Inv_setState _ g h
    case highScores =>
      show Inv (handleHighScoresInput g)
      unfold handleHighScoresInput
      split
      · exact Inv_setState _ g h
      · exact Inv_setState _ g h
    case accountMenu =>
      show Inv (handleAccountMenuInput k g)
      unfold handleAccountMenuInput
      split
      · exact Inv_setState _ g h
      split
      · exact Inv_setState _ g h
      exact Inv_setState _ g h
    case accountExport =>
      show Inv (setState ScreenState.welcome g)
      exact Inv_setState _ g h
    case accountDelete =>
      show Inv (handleAccountDeleteInput k g)
      unfold handleAccountDeleteInput
      split
      · exact h
      · exact Inv_setState _ g h

/-- Every reachable game state satisfies the shape and stats invariant. -/
theorem reach_inv (g : TetrisGame) (h : Reach g) : Inv g := by
  induction h with
  | start r1 r2 g => exact Inv_startGame r1 r2 g
  | key r1 r2 k g g' _ hd ih => exact Inv_dispatchKey r1 r2 k g g' ih hd
  | tick r g _ _ ih => exact Inv_gravityTick r g ih

/-- C7: after every lock — and in fact in every reachable game state, since
only `clearLines` inside a lock touches `level`/`lines` — the equality
`level = ⌊lines/10⌋ + 1` holds, including locks that clear zero lines. -/
theorem level_lines_invariant (g : TetrisGame) (h : Reach g) :
    g.level = g.lines / 10 + 1 :=
  (reach_inv g h).2.2.1

/-- Witness for `level_lines_invariant` at a freshly started game. -/
theorem level_lines_invariant_witness :
    (startGame Piece.I Piece.I default).level =
      (startGame Piece.I Piece.I default).lines / 10 + 1 :=
  level_lines_invariant _ (Reach.start Piece.I Piece.I default)

/-- C8: in every reachable game state the drop interval equals
`max(100, 1000 − (level−1)·100)` ms, hence lies in `[100, 1000]` and never
drops below 100; and across any two reachable states a higher level never
has a longer drop interval (`dropTime` is antitone in `level`). -/
theorem dropInterval_spec :
    (∀ g : TetrisGame, Reach g →
      g.dropTime = max 100 (1000 - ((g.level : Int) - 1) * 100) ∧
      100 ≤ g.dropTime ∧ g.dropTime ≤ 1000) ∧
    (∀ g g' : TetrisGame, Reach g → Reach g' → g.level ≤ g'.level →
      g'.dropTime ≤ g.dropTime) := by
  have hval : ∀ g : TetrisGame, Reach g →
      g.dropTime = max 100 (1000 - ((g.level : Int) - 1) * 100) :=
    fun g h => (reach_inv g h).2.2.2
  have hlevel : ∀ g : TetrisGame, Reach g → 1 ≤ g.level := by
    intro g h
    have h1 := (reach_inv g h).2.2.1
    omega
  constructor
  · intro g h
    refine ⟨hval g h, ?_, ?_⟩
    · rw [hval g h]; exact le_max_left _ _
    · rw [hval g h]
      have h1 := hlevel g h
      omega
  · intro g g' h h' hl
    rw [hval g h, hval g' h']
    have h1 := hlevel g h
    omega

/-- Witness for `dropInterval_spec` at a freshly started game. -/
theorem dropInterval_spec_witness :
    ((startGame Piece.I Piece.I default).dropTime =
      max 100
        (1000 - (((startGame Piece.I Piece.I default).level : Int) - 1) * 100) ∧
      100 ≤ (startGame Piece.I Piece.I default).dropTime ∧
      (startGame Piece.I Piece.I default).dropTime ≤ 1000) ∧
    (startGame Piece.I Piece.I default).dropTime ≤
      (startGame Piece.I Piece.I default).dropTime :=
  ⟨dropInterval_spec.1 _ (Reach.start Piece.I Piece.I default),
   dropInterval_spec.2 _ _ (Reach.start Piece.I Piece.I default)
     (Reach.start Piece.I Piece.I default) (le_refl _)⟩

/-- C9: in every reachable game state the board is exactly 20 rows of
exactly 10 cells, and every cell is either empty (`none`) or one of the 7
tetromino type tags. -/
theorem board_shape_invariant (g : TetrisGame) (h : Reach g) :
    g.board.length = 20 ∧ (∀ r ∈ g.board, r.length = 10) ∧
    (∀ r ∈ g.board, ∀ c ∈ r, c = none ∨ ∃ t : Piece, c = some t) := by
  obtain ⟨h1, h2, _, _⟩ := reach_inv g h
  refine ⟨h1, h2, ?_⟩
  intro r _ c _
  rcases c with _ | t
  · exact Or.inl rfl
  · exact Or.inr ⟨t, rfl⟩

/-- Witness for `board_shape_invariant` at a freshly started game. -/
theorem board_shape_invariant_witness :
    (startGame Piece.I Piece.I default).board.length = 20 ∧
    (∀ r ∈ (startGame Piece.I Piece.I default).board, r.length = 10) ∧
    (∀ r ∈ (startGame Piece.I Piece.I default).board, ∀ c ∈ r,
      c = none ∨ ∃ t : Piece, c = some t) :=
  board_shape_invariant _ (Reach.start Piece.I Piece.I default)

/-- Witness for `hardDrop_bounded` at a concrete board and catalog shape. -/
theorem hardDrop_bounded_witness :
    (∀ k < dropDistance emptyBoard 4 0 [[true, true], [true, true]],
      checkCollision emptyBoard 4 (0 + 1 + (k : Int))
        [[true, true], [true, true]] = false) ∧
    checkCollision emptyBoard 4
      (0 + 1 + (dropDistance emptyBoard 4 0 [[true, true], [true, true]] : Int))
      [[true, true], [true, true]] = true ∧
    dropDistance emptyBoard 4 0 [[true, true], [true, true]] ≤
      ((19 : Int) - 0).toNat :=
  hardDrop_bounded emptyBoard 4 0 Piece.O [[true, true], [true, true]]
    (by decide)

end TetrisSSH
